import Mathlib

/-!
# Filadex bulk ingestion / batch mutation engine — verification

A shallow embedding of the CSV import pipeline, the format detector, the id
validators and the batch mutation routes of the Filadex backend, together
with proofs and refutations of the specified properties.

Strings are modelled as `List Char` (`Str`), JavaScript numbers as rationals
extended with `NaN`, and the repository collaborator (storage layer) is kept
abstract: the import loops are parameterised over the repository operations,
mirroring the fact that the routes only consume a `create`/`list`/`delete`
contract.
-/

set_option autoImplicit false

namespace Filadex

/-- Strings, modelled character by character. -/
abbrev Str := List Char

/-- Whitespace characters removed by `String.prototype.trim` (ASCII subset). -/
def isWS (c : Char) : Bool :=
  c = ' ' || c = '\t' || c = '\n' || c = '\r'

/-- Embeds `s.trim()`: strip leading and trailing whitespace. -/
def trim (s : Str) : Str :=
  ((s.dropWhile isWS).reverse.dropWhile isWS).reverse

/-- Lower-casing of a single character (`toLowerCase` on the basic latin
range reached by this code base). -/
def lowChar (c : Char) : Char := c.toLower

/-- Embeds `s.toLowerCase()`. -/
def lower (s : Str) : Str := s.map lowChar

/-- Embeds `hay.includes(sub)`: `sub` occurs as a contiguous substring of `hay`. -/
def strContains (hay sub : Str) : Bool :=
  (List.range (hay.length + 1)).any (fun i => (hay.drop i).take sub.length == sub)

/-- JavaScript numbers: a rational value or `NaN`. -/
inductive JNum where
  | fin (q : ℚ)
  | nan
deriving DecidableEq

/-- The JavaScript values that can reach the validators and patch builders:
strings, numbers, booleans, `null` and `undefined`. -/
inductive JVal where
  | str (s : Str)
  | num (n : JNum)
  | bool (b : Bool)
  | jnull
  | undef
deriving DecidableEq

/-- Numeric value of a (non-empty) digit string. -/
def digitsVal (ds : Str) : ℕ :=
  ds.foldl (fun a c => 10 * a + (c.toNat - '0'.toNat)) 0

/-- Embeds `parseInt(s, 10)`: skip leading whitespace, read an optional sign and
then the longest run of decimal digits; `NaN` (here `none`) when no digit
follows. Trailing characters are discarded. -/
def parseIntB10 (s : Str) : Option ℤ :=
  let t := s.dropWhile isWS
  match t with
  | '-' :: r =>
    let ds := r.takeWhile Char.isDigit
    if ds.isEmpty then none else some (-(digitsVal ds : ℤ))
  | '+' :: r =>
    let ds := r.takeWhile Char.isDigit
    if ds.isEmpty then none else some (digitsVal ds : ℤ)
  | r =>
    let ds := r.takeWhile Char.isDigit
    if ds.isEmpty then none else some (digitsVal ds : ℤ)

/-- Embeds `validateId` (src/unnamed/part_000): a number is returned unchanged, a
string is fed to `parseInt(·, 10)` with `NaN` mapped to `null`, every other
type yields `null`. -/
def validateId (id : JVal) : Option JNum :=
  match id with
  | .num n => some n
  | .str s =>
    match parseIntB10 s with
    | some k => some (.fin (k : ℚ))
    | none => none
  | _ => none

/-- Embeds `validateIds`: map `validateId` over the list and keep the non-`null`
results (`.map(validateId).filter(id => id !== null)`). -/
def validateIds (ids : List JVal) : List JNum :=
  (ids.map validateId).reduceOption

/-! ## CSV parser (src/scripts utilities: parseCSVLine, escapeCsvField,
detectCSVFormat) -/

/-- The character scan of `parseCSVLine`: `"` toggles the in-quotes flag,
`,` outside quotes emits the trimmed current field, every other character
accumulates. -/
def parseAux : Str → Str → Bool → List Str
  | [], cur, _ => [trim cur]
  | c :: rest, cur, inQ =>
    if c = '"' then parseAux rest cur (!inQ)
    else if c = ',' ∧ inQ = false then trim cur :: parseAux rest [] false
    else parseAux rest (cur ++ [c]) inQ

/-- Embeds `parseCSVLine(line)`. -/
def parseCSVLine (line : Str) : List Str := parseAux line [] false

/-- Does the field need CSV quoting (contains a comma, a quote or a line
break)? -/
def needsQuote (s : Str) : Bool :=
  s.contains ',' || s.contains '"' || s.contains '\n'

/-- Embeds `str.replace(/"/g, '""')`: double every quote character. -/
def dupQuotes : Str → Str
  | [] => []
  | c :: r => if c = '"' then '"' :: '"' :: dupQuotes r else c :: dupQuotes r

/-- Embeds `escapeCsvField(field)`: empty output for `null`/`undefined`; otherwise
wrap in quotes with internal quotes doubled exactly when the value contains
a comma, quote or newline. -/
def escapeCsvField : Option Str → Str
  | none => []
  | some s => if needsQuote s then '"' :: (dupQuotes s ++ ['"']) else s

/-- Embeds `fields.join(',')`. -/
def joinComma : List Str → Str
  | [] => []
  | [f] => f
  | f :: g :: rest => f ++ ',' :: joinComma (g :: rest)

/-- Embeds `parseCSVFile(content)`: split on line breaks, drop whitespace-only
lines. -/
def parseCSVFile (content : Str) : List Str :=
  (content.splitOn '\n').filter (fun l => 0 < (trim l).length)

/-- Result of `detectCSVFormat`: the index of the first data row and the
column-name → field-index map (an association list in expected-column
order). -/
structure CSVFormat where
  startIndex : ℕ
  columnMap : List (Str × ℕ)
deriving DecidableEq

/-- Embeds `detectCSVFormat(lines, expectedColumns)`: lower-case the first line; if
some expected column occurs in it as a substring, treat it as a header
(`startIndex = 1`) and map each expected column to the index of the first
parsed header field equal to it; otherwise `startIndex = 0` with an empty
map. -/
def detectCSVFormat (lines : List Str) (expectedColumns : List Str) : CSVFormat :=
  match lines with
  | [] => ⟨0, []⟩
  | first :: _ =>
    let headerRow := lower first
    if expectedColumns.any (fun col => strContains headerRow col) then
      let headers := (parseCSVLine headerRow).map (fun h => lower (trim h))
      ⟨1, expectedColumns.filterMap (fun col =>
        (headers.findIdx? (fun h => h == col)).map (fun i => (col, i)))⟩
    else ⟨0, []⟩

/-- The format detector as the specification words it: lower-case the first
line, treat it as a header exactly when some expected column occurs in it
as a substring, and map each expected column to the index of the first
(trimmed) field of the header line equal to it case-insensitively. -/
def detectCSVFormatSpec (lines expectedColumns : List Str) : CSVFormat :=
  match lines with
  | [] => ⟨0, []⟩
  | first :: _ =>
    if expectedColumns.any (fun col => strContains (lower first) col) then
      ⟨1, expectedColumns.filterMap (fun col =>
        ((parseCSVLine first).findIdx?
          (fun h => lower (trim h) == lower col)).map (fun i => (col, i)))⟩
    else ⟨0, []⟩

/-! ## JavaScript string/number conversions used by the update routes -/

/-- Decimal digits of the fractional part `r / d` (fuel-bounded). -/
def fracDigits : ℕ → ℕ → ℕ → Str
  | 0, _, _ => []
  | _ + 1, 0, _ => []
  | fuel + 1, r, d =>
    Char.ofNat ('0'.toNat + r * 10 / d) :: fracDigits fuel (r * 10 % d) d

/-- Decimal rendering of a rational (the numbers reaching these routes are
finite decimals). -/
def ratToStr (q : ℚ) : Str :=
  let sgn : Str := if q.num < 0 then ['-'] else []
  let n := q.num.natAbs
  if q.den = 1 then sgn ++ (toString n).data
  else sgn ++ (toString (n / q.den)).data ++ '.' :: fracDigits 30 (n % q.den) q.den

/-- Embeds `String(n)` on a number. -/
def numToStr : JNum → Str
  | .nan => "NaN".data
  | .fin q => ratToStr q

/-- Embeds `String(v)`. -/
def jsString : JVal → Str
  | .str s => s
  | .num n => numToStr n
  | .bool b => if b then "true".data else "false".data
  | .jnull => "null".data
  | .undef => "undefined".data

/-- Embeds `v.toString()`: as `String(v)` but throwing (`none`) on `null` and
`undefined`. -/
def jsToStrM : JVal → Option Str
  | .jnull => none
  | .undef => none
  | v => some (jsString v)

/-- Strip an optional sign, returning the sign factor and the rest. -/
def splitSign (t : Str) : ℚ × Str :=
  match t with
  | '-' :: r => (-1, r)
  | '+' :: r => (1, r)
  | r => (1, r)

/-- Embeds `Number(s)` on a (decimal-literal) string: trimmed; empty string is `0`;
otherwise the fully-consumed literal `[sign] digits [. digits]`, anything
else `NaN`. -/
def strToNum (s : Str) : JNum :=
  let t := trim s
  if t.isEmpty then .fin 0
  else
    let (sgn, u) := splitSign t
    let whole := u.takeWhile Char.isDigit
    match u.dropWhile Char.isDigit with
    | [] => if whole.isEmpty then .nan else .fin (sgn * digitsVal whole)
    | '.' :: frac =>
      if frac.all Char.isDigit ∧ ¬(whole.isEmpty ∧ frac.isEmpty) then
        .fin (sgn * (digitsVal whole + digitsVal frac / 10 ^ frac.length))
      else .nan
    | _ => .nan

/-- Embeds `Number(v)`. -/
def jsToNum : JVal → JNum
  | .str s => strToNum s
  | .num n => n
  | .bool b => .fin (if b then 1 else 0)
  | .jnull => .fin 0
  | .undef => .nan

/-! ## Batch mutation engine (src/scripts utilities: processBatchOperation) -/

/-- A thrown JavaScript value: an `Error` carrying a message, or anything
else. -/
inductive JSErr where
  | err (msg : Str)
  | other

/-- Embeds `error instanceof Error ? error.message : 'Unknown error'`. -/
def errMessage : JSErr → Str
  | .err m => m
  | .other => "Unknown error".data

/-- Embeds `BatchResult<T>`. -/
structure BatchResult (α : Type) where
  success : List α
  failed : List (JNum × Str)
  total : ℕ

/-- The `for (const id of ids)` loop of `processBatchOperation`. -/
def pboGo {α : Type} (op : JNum → Except JSErr α) :
    List JNum → BatchResult α → BatchResult α
  | [], r => r
  | id :: rest, r =>
    match op id with
    | .ok item => pboGo op rest { r with success := r.success ++ [item] }
    | .error e => pboGo op rest { r with failed := r.failed ++ [(id, errMessage e)] }

/-- Embeds `processBatchOperation(ids, operation)`. -/
def processBatchOperation {α : Type} (ids : List JNum)
    (op : JNum → Except JSErr α) : BatchResult α :=
  pboGo op ids ⟨[], [], ids.length⟩

/-! ## Batch delete route (DELETE /api/filaments/batch) -/

/-- Outcome of the batch-delete route: a 400 rejection before any work, or
a success response carrying the deleted count (the repository state is kept
alongside for specification purposes). -/
inductive BDResp (σ : Type) where
  | badRequest
  | ok (s : σ) (deletedCount : ℕ)
deriving DecidableEq

/-- One iteration of the delete loop: count the id if the repository
reported `true`; a `false` report or a thrown error leaves the count
unchanged. -/
def batchDelStep {σ : Type} (del : σ → JNum → σ × Except Str Bool)
    (st : σ × ℕ) (id : JNum) : σ × ℕ :=
  match del st.1 id with
  | (s', .ok true) => (s', st.2 + 1)
  | (s', .ok false) => (s', st.2)
  | (s', .error _) => (s', st.2)

/-- The batch-delete route body: reject empty id lists and lists with no
valid id, otherwise run the loop and answer with the deleted count. -/
def batchDeleteRoute {σ : Type} (del : σ → JNum → σ × Except Str Bool)
    (rawIds : List JVal) (s : σ) : BDResp σ :=
  if rawIds.isEmpty then .badRequest
  else
    let validIds := validateIds rawIds
    if validIds.isEmpty then .badRequest
    else
      let r := validIds.foldl (batchDelStep del) (s, 0)
      .ok r.1 r.2

/-- A stored filament row, reduced to what the delete contract inspects. -/
structure FilRow where
  id : JNum
  owner : ℕ
deriving DecidableEq

/-- Modelled from the spec: the repository collaborator's
`delete(id, ownerId) -> bool` (not under src/) removes the rows with the
given id owned by `ownerId` and reports whether any such row existed. -/
def specDelete (uid : ℕ) (s : List FilRow) (id : JNum) :
    List FilRow × Except Str Bool :=
  if s.any (fun r => r.id = id ∧ r.owner = uid) then
    (s.filter (fun r => ¬(r.id = id ∧ r.owner = uid)), .ok true)
  else (s, .ok false)

/-! ## Partial-field patch construction (single PATCH, batch PATCH,
batch-update variant) -/

/-- The sixteen updatable filament fields. -/
inductive Field where
  | name | manufacturer | material | colorName | colorCode | printTemp
  | diameter | totalWeight | remainingPercentage
  | purchaseDate | purchasePrice | status | spoolType | dryerCount
  | lastDryingDate | storageLocation
deriving DecidableEq

/-- An update request payload: the fields explicitly present, with their
values (a field absent from the payload is `none`, i.e. `undefined`). -/
abbrev Payload : Type := Field → Option JVal

/-- A built patch object. -/
abbrev Patch : Type := Field → Option JVal

/-- Embeds `PATCH /api/filaments/batch` (the original batch endpoint): every field
present in `updates` is copied, most through `String(·)`, `dryerCount`
through `Number(·)`, and the two date fields raw. -/
def buildBatchPatch (u : Payload) : Patch := fun f =>
  match f with
  | .purchaseDate => u .purchaseDate
  | .lastDryingDate => u .lastDryingDate
  | .dryerCount => (u .dryerCount).map (fun v => JVal.num (jsToNum v))
  | f => (u f).map (fun v => JVal.str (jsString v))

/-- Embeds `PATCH /api/filaments/batch-update` (the simplified variant): only
`status`, `storageLocation` and `remainingPercentage` are copied (through
`String(·)`); every other payload field is ignored. -/
def buildBatchUpdatePatch (u : Payload) : Patch := fun f =>
  match f with
  | .status => (u .status).map (fun v => JVal.str (jsString v))
  | .storageLocation => (u .storageLocation).map (fun v => JVal.str (jsString v))
  | .remainingPercentage => (u .remainingPercentage).map (fun v => JVal.str (jsString v))
  | _ => none

/-- Helper for the single-record PATCH: a field passed through
`data.x.toString()` — absent stays absent, `null`/`undefined` values throw
(`none` at the outer level). -/
def tosField : Option JVal → Option (Option JVal)
  | none => some none
  | some v => (jsToStrM v).map (fun s => some (JVal.str s))

/-- Embeds `PATCH /api/filaments/:id`: every present field is copied raw except
`diameter`, `totalWeight`, `remainingPercentage` and `purchasePrice`, which
go through `.toString()` (throwing on `null`); a throw aborts the whole
construction. -/
def buildSinglePatch (u : Payload) : Option Patch :=
  match tosField (u .diameter), tosField (u .totalWeight),
    tosField (u .remainingPercentage), tosField (u .purchasePrice) with
  | some d, some tw, some rp, some pp =>
    some (fun f =>
      match f with
      | .diameter => d
      | .totalWeight => tw
      | .remainingPercentage => rp
      | .purchasePrice => pp
      | f => u f)
  | _, _, _, _ => none

/-- The fields honoured by the batch-update variant. -/
def simplifiedFields : List Field := [.status, .storageLocation, .remainingPercentage]

/-- A payload setting only `name`. -/
def namePayload : Payload := fun f => if f = .name then some (.str ['X']) else none

/-- A payload setting only `status` (to a string). -/
def statusPayload : Payload :=
  fun f => if f = .status then some (.str ['o', 'k']) else none

/-! ## Import pipeline

Each CSV import loop is embedded with the repository and schema-validation
collaborators as parameters: `create` returns `none` when the repository
call throws, the validation parameter returns `false` when the schema parse
throws, and the loops that re-fetch the existing collection on every row
take a `getNames`/`getVals` view of the evolving repository state. -/

/-- The aggregate returned by every import call. -/
structure ImportResult where
  created : ℕ
  duplicates : ℕ
  errors : ℕ
deriving DecidableEq

/-- Total number of rows accounted for in an `ImportResult`. -/
def ImportResult.processed (r : ImportResult) : ℕ :=
  r.created + r.duplicates + r.errors

/-- Number of non-blank lines in a list of data rows. -/
def countNonBlank (lines : List Str) : ℕ :=
  (lines.filter (fun l => !(trim l).isEmpty)).length

/-- Counting weight of one row in the loops that account for every
non-blank row. -/
def rowWeight (l : Str) : ℕ := if (trim l).isEmpty then 0 else 1

/-! ### Filament CSV import (POST /api/filaments?import=csv) -/

/-- The sixteen expected (lower-case) filament CSV columns. -/
def expectedFilamentColumns : List Str :=
  ["name".data, "manufacturer".data, "material".data, "colorname".data,
   "colorcode".data, "diameter".data, "printtemp".data, "totalweight".data,
   "remainingpercentage".data, "purchasedate".data, "purchaseprice".data,
   "status".data, "spooltype".data, "dryercount".data, "lastdryingdate".data,
   "storagelocation".data]

/-- Embeds `getValue(columnName, defaultIndex)`: by column map when a header was
detected and the column is mapped, else by positional default; missing
cells become the empty string. -/
def getValue (startIndex : ℕ) (cm : List (Str × ℕ)) (values : List Str)
    (col : Str) (dflt : ℕ) : Str :=
  if startIndex = 1 then
    match cm.lookup col with
    | some i => values.getD i []
    | none => values.getD dflt []
  else values.getD dflt []

/-- The `insertData` draft built per filament row. -/
structure FilDraft where
  userId : ℕ
  name : Str
  manufacturer : Str
  material : Str
  colorName : Str
  colorCode : Str
  printTemp : Str
  diameter : Option Str
  totalWeight : Str
  remainingPercentage : Str
  purchaseDate : Option Str
  purchasePrice : Option Str
  status : Option Str
  spoolType : Option Str
  dryerCount : Option ℤ
  lastDryingDate : Option Str
  storageLocation : Str
deriving DecidableEq

/-- Field extraction and defaulting for one filament CSV row (`dryerCount`
is `none` when `parseInt` yields `NaN`). -/
def filamentDraft (uid startIndex : ℕ) (cm : List (Str × ℕ))
    (values : List Str) : FilDraft :=
  let gv := getValue startIndex cm values
  let diameter := gv "diameter".data 5
  let totalWeight := gv "totalweight".data 7
  let remainingPercentage := gv "remainingpercentage".data 8
  let purchaseDate := gv "purchasedate".data 9
  let purchasePrice := gv "purchaseprice".data 10
  let status := gv "status".data 11
  let spoolType := gv "spooltype".data 12
  let dryerCount := gv "dryercount".data 13
  let lastDryingDate := gv "lastdryingdate".data 14
  { userId := uid
    name := gv "name".data 0
    manufacturer := gv "manufacturer".data 1
    material := gv "material".data 2
    colorName := gv "colorname".data 3
    colorCode := gv "colorcode".data 4
    printTemp := gv "printtemp".data 6
    diameter := if diameter.isEmpty then none else some diameter
    totalWeight := if totalWeight.isEmpty then "1".data else totalWeight
    remainingPercentage :=
      if remainingPercentage.isEmpty then "100".data else remainingPercentage
    purchaseDate := if purchaseDate.isEmpty then none else some purchaseDate
    purchasePrice := if purchasePrice.isEmpty then none else some purchasePrice
    status := if status.isEmpty then none else some status
    spoolType := if spoolType.isEmpty then none else some spoolType
    dryerCount := if dryerCount.isEmpty then some 0 else parseIntB10 dryerCount
    lastDryingDate := if lastDryingDate.isEmpty then none else some lastDryingDate
    storageLocation := gv "storagelocation".data 15 }

/-- One iteration of the filament CSV import loop. The existing-name index
is the one loaded before the loop; it is never extended. -/
def filamentRow {σ : Type} (create : σ → FilDraft → Option σ) (uid : ℕ)
    (existingNames : List Str) (startIndex : ℕ) (cm : List (Str × ℕ))
    (st : ImportResult × σ) (line : Str) : ImportResult × σ :=
  let l := trim line
  if l.isEmpty then st
  else
    let d := filamentDraft uid startIndex cm (parseCSVLine l)
    if d.name.isEmpty ∨ d.material.isEmpty ∨ d.colorName.isEmpty then
      ({ st.1 with errors := st.1.errors + 1 }, st.2)
    else if existingNames.any (fun n => lower n == lower d.name) then
      ({ st.1 with duplicates := st.1.duplicates + 1 }, st.2)
    else
      match create st.2 d with
      | some s' => ({ st.1 with created := st.1.created + 1 }, s')
      | none => ({ st.1 with errors := st.1.errors + 1 }, st.2)

/-- The non-blank lines of the filament CSV body. -/
def filamentCsvLines (csvData : Str) : List Str :=
  (csvData.splitOn '\n').filter (fun l => 0 < (trim l).length)

/-- The whole filament CSV import call. -/
def filamentCSVImport {σ : Type} (create : σ → FilDraft → Option σ) (uid : ℕ)
    (csvData : Str) (existingNames : List Str) (s : σ) : ImportResult × σ :=
  let csvLines := filamentCsvLines csvData
  let fmt := detectCSVFormat csvLines expectedFilamentColumns
  (csvLines.drop fmt.startIndex).foldl
    (filamentRow create uid existingNames fmt.startIndex fmt.columnMap)
    (⟨0, 0, 0⟩, s)

/-! ### Color CSV import (POST /api/colors?import=csv) -/

/-- A stored color. -/
structure Color where
  name : Str
  code : Str
deriving DecidableEq

/-- Embeds `.replace(/"/g, '')`. -/
def remQuotes (s : Str) : Str := s.filter (fun c => ¬c = '"')

/-- Prefix a `#` when the code lacks one. -/
def ensureHash (code : Str) : Str :=
  match code with
  | '#' :: _ => code
  | _ => '#' :: code

/-- Name/code extraction from a parsed color row: the 3-field form
synthesizes the display name from color name and brand, the 2-field form is
taken as-is, anything shorter is an error (`none`). -/
def extractNameCode (values : List Str) : Option (Str × Str) :=
  if 3 ≤ values.length then
    let brand := remQuotes (trim (values.getD 0 []))
    let colorName := remQuotes (trim (values.getD 1 []))
    some (colorName ++ " (".data ++ brand ++ ")".data,
      remQuotes (trim (values.getD 2 [])))
  else if 2 ≤ values.length then
    some (remQuotes (trim (values.getD 0 [])), remQuotes (trim (values.getD 1 [])))
  else none

/-- One iteration of the color CSV import loop. The existing-color index is
the one loaded before the loop; it is never extended. -/
def colorRow {σ : Type} (validate : Str → Str → Bool)
    (create : σ → Str → Str → Option σ) (existing : List Color)
    (st : ImportResult × σ) (line : Str) : ImportResult × σ :=
  let l := trim line
  if l.isEmpty then st
  else
    match extractNameCode (parseCSVLine l) with
    | none => ({ st.1 with errors := st.1.errors + 1 }, st.2)
    | some (name, code0) =>
      if name.isEmpty ∨ code0.isEmpty then
        ({ st.1 with errors := st.1.errors + 1 }, st.2)
      else
        let code := ensureHash code0
        if existing.any (fun c =>
            lower c.name == lower name ∧ lower c.code == lower code) then
          ({ st.1 with duplicates := st.1.duplicates + 1 }, st.2)
        else if ¬validate name code then
          ({ st.1 with errors := st.1.errors + 1 }, st.2)
        else
          match create st.2 name code with
          | some s' => ({ st.1 with created := st.1.created + 1 }, s')
          | none => ({ st.1 with errors := st.1.errors + 1 }, st.2)

/-- Header detection of the color import: first line mentioning `name` or
`brand`. -/
def colorStartIndex (csvLines : List Str) : ℕ :=
  let h := lower (csvLines.headD [])
  if strContains h "name".data || strContains h "brand".data then 1 else 0

/-- The whole color CSV import call. -/
def colorImport {σ : Type} (validate : Str → Str → Bool)
    (create : σ → Str → Str → Option σ) (csvData : Str)
    (existing : List Color) (s : σ) : ImportResult × σ :=
  let csvLines := csvData.splitOn '\n'
  (csvLines.drop (colorStartIndex csvLines)).foldl
    (colorRow validate create existing) (⟨0, 0, 0⟩, s)

/-! ### Manufacturer / material CSV imports (name-keyed imports with a
keyword-based header detection and per-row re-fetch of the existing
collection) -/

/-- Header/column detection of the name-keyed imports: the first (lowered)
line is a header when it mentions a keyword; the name column is the first
comma-separated header cell mentioning a keyword. -/
def namedHeaderInfo (kw : Str → Bool) (headerRow : Str) : ℕ × ℕ :=
  if kw headerRow then
    (1,
      if headerRow.contains ',' then
        match (headerRow.splitOn ',').findIdx? kw with
        | some i => i
        | none => 0
      else 0)
  else (0, 0)

/-- Embeds `line.includes(',') ? line.split(',')[idx].trim() : line.trim()` —
`none` when the index is out of range (`undefined.trim()` throws). -/
def splitName (idx : ℕ) (l : Str) : Option Str :=
  if l.contains ',' then ((l.splitOn ',').get? idx).map trim
  else some (trim l)

/-- Counting weight of one row in the manufacturer/material loops, whose
empty-name rows are skipped without counting. -/
def namedWeight (idx : ℕ) (l : Str) : ℕ :=
  if (trim l).isEmpty then 0
  else
    match splitName idx (trim l) with
    | none => 1
    | some name => if name.isEmpty then 0 else 1

/-- One iteration of a name-keyed import loop: an empty extracted name is
silently skipped (no counter); an out-of-range name column is a thrown
`TypeError`, caught and counted as an error; the duplicate check re-fetches
the collection from the current repository state. -/
def namedRow {σ : Type} (getNames : σ → List Str) (validate : Str → Bool)
    (create : σ → Str → Option σ) (idx : ℕ) (st : ImportResult × σ)
    (line : Str) : ImportResult × σ :=
  let l := trim line
  if l.isEmpty then st
  else
    match splitName idx l with
    | none => ({ st.1 with errors := st.1.errors + 1 }, st.2)
    | some name =>
      if name.isEmpty then st
      else if (getNames st.2).any (fun m => lower m == lower name) then
        ({ st.1 with duplicates := st.1.duplicates + 1 }, st.2)
      else if ¬validate name then
        ({ st.1 with errors := st.1.errors + 1 }, st.2)
      else
        match create st.2 name with
        | some s' => ({ st.1 with created := st.1.created + 1 }, s')
        | none => ({ st.1 with errors := st.1.errors + 1 }, st.2)

/-- A whole name-keyed CSV import call, parameterised by the header
keywords. -/
def namedImport {σ : Type} (kw : Str → Bool) (getNames : σ → List Str)
    (validate : Str → Bool) (create : σ → Str → Option σ) (csvData : Str)
    (s : σ) : ImportResult × σ :=
  let csvLines := csvData.splitOn '\n'
  let info := namedHeaderInfo kw (lower (csvLines.headD []))
  (csvLines.drop info.1).foldl (namedRow getNames validate create info.2)
    (⟨0, 0, 0⟩, s)

/-- Manufacturer header keywords: `name`, `hersteller`, `vendor`. -/
def manuKeyword (h : Str) : Bool :=
  strContains h "name".data || strContains h "hersteller".data ||
    strContains h "vendor".data

/-- The manufacturer CSV import (POST /api/manufacturers?import=csv). -/
def manufacturerImport {σ : Type} (getNames : σ → List Str)
    (validate : Str → Bool) (create : σ → Str → Option σ) (csvData : Str)
    (s : σ) : ImportResult × σ :=
  namedImport manuKeyword getNames validate create csvData s

/-- Material header keywords: `name`, `material`, `type`. -/
def matKeyword (h : Str) : Bool :=
  strContains h "name".data || strContains h "material".data ||
    strContains h "type".data

/-- The material CSV import (POST /api/materials?import=csv). -/
def materialImport {σ : Type} (getNames : σ → List Str)
    (validate : Str → Bool) (create : σ → Str → Option σ) (csvData : Str)
    (s : σ) : ImportResult × σ :=
  namedImport matKeyword getNames validate create csvData s

/-! ### Diameter and storage-location CSV imports -/

/-- One iteration of the diameter import loop: the whole trimmed line is
the value; dedup re-fetches the collection. -/
def diaRow {σ : Type} (getVals : σ → List Str) (validate : Str → Bool)
    (create : σ → Str → Option σ) (st : ImportResult × σ) (line : Str) :
    ImportResult × σ :=
  let l := trim line
  if l.isEmpty then st
  else if (getVals st.2).any (fun v => lower v == lower l) then
    ({ st.1 with duplicates := st.1.duplicates + 1 }, st.2)
  else if ¬validate l then
    ({ st.1 with errors := st.1.errors + 1 }, st.2)
  else
    match create st.2 l with
    | some s' => ({ st.1 with created := st.1.created + 1 }, s')
    | none => ({ st.1 with errors := st.1.errors + 1 }, st.2)

/-- Header detection of the diameter import: first line mentioning
`value`. -/
def diaStartIndex (csvLines : List Str) : ℕ :=
  if strContains (lower (csvLines.headD [])) "value".data then 1 else 0

/-- The diameter CSV import (POST /api/diameters?import=csv). -/
def diameterImport {σ : Type} (getVals : σ → List Str)
    (validate : Str → Bool) (create : σ → Str → Option σ) (csvData : Str)
    (s : σ) : ImportResult × σ :=
  let csvLines := csvData.splitOn '\n'
  (csvLines.drop (diaStartIndex csvLines)).foldl
    (diaRow getVals validate create) (⟨0, 0, 0⟩, s)

/-- One iteration of the storage-location import loop: the trimmed line is
the name; the empty-name skip guard is kept from the source (it can never
fire, the line being non-blank and already trimmed). -/
def slRow {σ : Type} (getNames : σ → List Str) (validate : Str → Bool)
    (create : σ → Str → Option σ) (st : ImportResult × σ) (line : Str) :
    ImportResult × σ :=
  let l := trim line
  if l.isEmpty then st
  else
    let name := l
    if name.isEmpty ∨ (trim name).isEmpty then st
    else if (getNames st.2).any (fun m => lower m == lower name) then
      ({ st.1 with duplicates := st.1.duplicates + 1 }, st.2)
    else if ¬validate name then
      ({ st.1 with errors := st.1.errors + 1 }, st.2)
    else
      match create st.2 name with
      | some s' => ({ st.1 with created := st.1.created + 1 }, s')
      | none => ({ st.1 with errors := st.1.errors + 1 }, st.2)

/-- Header detection of the storage-location import: first line mentioning
`name`. -/
def slStartIndex (csvLines : List Str) : ℕ :=
  if strContains (lower (csvLines.headD [])) "name".data then 1 else 0

/-- The storage-location CSV import (POST /api/storage-locations?import=csv). -/
def storageLocationImport {σ : Type} (getNames : σ → List Str)
    (validate : Str → Bool) (create : σ → Str → Option σ) (csvData : Str)
    (s : σ) : ImportResult × σ :=
  let csvLines := csvData.splitOn '\n'
  (csvLines.drop (slStartIndex csvLines)).foldl
    (slRow getNames validate create) (⟨0, 0, 0⟩, s)

/-! ## Theorems: id validation (C10, C4) -/

/-- C10: `validateId` on a string returns the `parseInt`-style integer
prefix (discarding trailing characters, e.g. `"12abc" ↦ 12`, `"3.5" ↦ 3`)
and is `null` exactly when no integer prefix parses; numbers pass through
unchanged; booleans, `null` and `undefined` yield `null`; and `validateIds`
is the order-preserving filter-map of `validateId`, so its output is never
longer than its input. -/
theorem validateId_spec :
    validateId (.str "12abc".data) = some (.fin 12)
    ∧ validateId (.str "3.5".data) = some (.fin 3)
    ∧ (∀ s : Str, validateId (.str s) = (parseIntB10 s).map (fun k => .fin (k : ℚ)))
    ∧ (∀ n : JNum, validateId (.num n) = some n)
    ∧ (∀ b : Bool, validateId (.bool b) = none)
    ∧ validateId .jnull = none
    ∧ validateId .undef = none
    ∧ (∀ ids : List JVal, validateIds ids = ids.filterMap validateId)
    ∧ (∀ ids : List JVal, (validateIds ids).length ≤ ids.length) := by
  refine ⟨rfl, rfl, ?_, fun _ => rfl, fun _ => rfl, rfl, rfl, ?_, ?_⟩
  · intro s
    simp only [validateId]
    cases h : parseIntB10 s <;> simp [h]
  · intro ids
    unfold validateIds
    rw [List.reduceOption, List.filterMap_map]
    rfl
  · intro ids
    have h : validateIds ids = ids.filterMap validateId := by
      unfold validateIds
      rw [List.reduceOption, List.filterMap_map]
      rfl
    rw [h]
    exact List.length_filterMap_le _ _

/-- C4, counterexample: `validateIds(["1", 2, "abc", null, 3.5])` is
not `[1, 2, 3]`: the non-integral number `3.5` passes through unmodified. -/
theorem validateIds_example_ne :
    validateIds [.str "1".data, .num (.fin 2), .str "abc".data, .jnull,
      .num (.fin 3.5)] ≠ [.fin 1, .fin 2, .fin 3] := by
  intro h
  have e : validateIds [.str "1".data, .num (.fin 2), .str "abc".data, .jnull,
      .num (.fin 3.5)] = [.fin 1, .fin 2, .fin 3.5] := rfl
  rw [e] at h
  simp only [List.cons.injEq, JNum.fin.injEq, and_true] at h
  norm_num at h

/-- C4, amended: `validateIds(["1", 2, "abc", null, 3.5])` returns
`[1, 2, 3.5]`: numeric strings are parsed as truncating integers, numeric
values (integral or not) pass through unmodified, and non-numeric strings,
`null` and other types are dropped. -/
theorem validateIds_example :
    validateIds [.str "1".data, .num (.fin 2), .str "abc".data, .jnull,
      .num (.fin 3.5)] = [.fin 1, .fin 2, .fin 3.5]
    ∧ (∀ n : JNum, validateId (.num n) = some n)
    ∧ validateId (.str "abc".data) = none
    ∧ validateId .jnull = none :=
  ⟨rfl, fun _ => rfl, rfl, rfl⟩

/-! ## Theorems: batch engine (C7) -/

/-- Unfolding of the `processBatchOperation` loop over an arbitrary
accumulated result. -/
theorem pboGo_spec {α : Type} (op : JNum → Except JSErr α) (ids : List JNum)
    (r : BatchResult α) :
    pboGo op ids r =
      ⟨r.success ++ ids.filterMap (fun id => (op id).toOption),
        r.failed ++ ids.filterMap (fun id =>
          match op id with
          | .error e => some (id, errMessage e)
          | .ok _ => none),
        r.total⟩ := by
  induction ids generalizing r with
  | nil => simp [pboGo]
  | cons id rest ih =>
    unfold pboGo
    cases h : op id <;>
      simp [ih, h, Except.toOption, List.filterMap_cons, List.append_assoc]

/-- Lengths of the success/failure filter-maps sum to the id count: each id
lands in exactly one of the two lists. -/
theorem pbo_length_split {α : Type} (op : JNum → Except JSErr α) :
    ∀ ids : List JNum,
      (ids.filterMap (fun id => (op id).toOption)).length +
        (ids.filterMap (fun id =>
          match op id with
          | .error e => some (id, errMessage e)
          | .ok _ => none)).length = ids.length := by
  intro ids
  induction ids with
  | nil => simp
  | cons id rest ih =>
    simp only [Except.toOption] at ih ⊢
    cases h : op id <;>
      simp only [List.filterMap_cons, h, List.length_cons] <;> omega

/-- C7: `processBatchOperation` reports `total` equal to the id count,
collects, in input order, the results of the succeeding operations in
`success` and the id/error-message pairs of the throwing operations in
`failed`, always continues through the full list, and satisfies
`success.length + failed.length == total`. -/
theorem processBatchOperation_spec {α : Type} (ids : List JNum)
    (op : JNum → Except JSErr α) :
    (processBatchOperation ids op).total = ids.length
    ∧ (processBatchOperation ids op).success.length +
        (processBatchOperation ids op).failed.length = ids.length
    ∧ (processBatchOperation ids op).success =
        ids.filterMap (fun id => (op id).toOption)
    ∧ (processBatchOperation ids op).failed =
        ids.filterMap (fun id =>
          match op id with
          | .error e => some (id, errMessage e)
          | .ok _ => none) := by
  unfold processBatchOperation
  rw [pboGo_spec]
  refine ⟨rfl, ?_, by simp, by simp⟩
  simpa using pbo_length_split op ids

/-! ## Theorems: batch delete (C5) -/

/-- C5: Batch delete with `ids=[1,2,999]` against a store owning rows
`1` and `2` answers successfully with `deletedCount = 2`; a nonexistent id
is a silent no-op for the loop (neither counted nor failing); and whenever
the request guards pass (non-empty id list with at least one valid id) the
route answers successfully, whatever the repository does. -/
theorem batchDelete_spec :
    batchDeleteRoute (specDelete 7)
        [.num (.fin 1), .num (.fin 2), .num (.fin 999)]
        [⟨.fin 1, 7⟩, ⟨.fin 2, 7⟩] = .ok [] 2
    ∧ (∀ (s : List FilRow) (c : ℕ) (id : JNum) (uid : ℕ),
        (∀ r ∈ s, ¬(r.id = id ∧ r.owner = uid)) →
        batchDelStep (specDelete uid) (s, c) id = (s, c))
    ∧ (∀ (σ : Type) (del : σ → JNum → σ × Except Str Bool)
        (raw : List JVal) (s : σ), raw ≠ [] → validateIds raw ≠ [] →
        ∃ s' c, batchDeleteRoute del raw s = .ok s' c) := by
  refine ⟨rfl, ?_, ?_⟩
  · intro s c id uid h
    simp only [batchDelStep, specDelete]
    rw [if_neg]
    intro hc
    rw [List.any_eq_true] at hc
    obtain ⟨r, hr, hcond⟩ := hc
    exact h r hr (by simpa using hcond)
  · intro σ del raw s hraw hvalid
    simp only [batchDeleteRoute]
    rw [if_neg (by simpa [List.isEmpty_iff] using hraw),
      if_neg (by simpa [List.isEmpty_iff] using hvalid)]
    exact ⟨_, _, rfl⟩

/-- C5, witness: The no-op conjunct at id `5` over the empty store and
the success conjunct at `ids=[1]`. -/
theorem batchDelete_spec_witness :
    batchDelStep (specDelete 7) ([], 0) (.fin 5) = ([], 0)
    ∧ ∃ s' c, batchDeleteRoute (specDelete 7) [.num (.fin 1)] [] = .ok s' c :=
  ⟨batchDelete_spec.2.1 [] 0 (.fin 5) 7 (by simp),
    batchDelete_spec.2.2 _ (specDelete 7) [.num (.fin 1)] []
      (by simp)
      (by
        intro h
        have e : validateIds [JVal.num (.fin 1)] = [JNum.fin 1] := rfl
        rw [e] at h
        cases h)⟩

/-! ## Theorems: partial-field patch construction (C3) -/

/-- C3, counterexample: On the payload `{name: "X"}` the original batch
PATCH and the batch-update variant build different patch objects: the
variant only honours `status`, `storageLocation` and
`remainingPercentage`. -/
theorem patch_builders_ne :
    ¬buildBatchPatch namePayload = buildBatchUpdatePatch namePayload := by
  intro h
  have hn := congrFun h .name
  simp [buildBatchPatch, buildBatchUpdatePatch, namePayload] at hn

/-- Fields absent from every payload respecting the simplified domain. -/
theorem payload_none_of_not_simplified (u : Payload)
    (hdom : ∀ f, u f ≠ none → f ∈ simplifiedFields) :
    ∀ f, f ∉ simplifiedFields → u f = none := by
  intro f hf
  by_contra h
  exact hf (hdom f h)

/-- C3, amended: The three patch builders agree on payloads whose
present fields all lie in `{status, storageLocation, remainingPercentage}`
and carry string values; in general they differ (see the counterexample):
the batch-update variant drops every other field, and the entry points also
disagree on non-string values (`String(·)` versus raw copy versus
`Number(·)`). -/
theorem patch_builders_agree (u : Payload)
    (hstr : ∀ f v, u f = some v → ∃ s, v = JVal.str s)
    (hdom : ∀ f, u f ≠ none → f ∈ simplifiedFields) :
    ∃ p, buildSinglePatch u = some p
      ∧ buildBatchPatch u = p
      ∧ buildBatchUpdatePatch u = p := by
  have hnone := payload_none_of_not_simplified u hdom
  have hd : u .diameter = none := hnone _ (by simp [simplifiedFields])
  have htw : u .totalWeight = none := hnone _ (by simp [simplifiedFields])
  have hpp : u .purchasePrice = none := hnone _ (by simp [simplifiedFields])
  have hrp : tosField (u .remainingPercentage) = some (u .remainingPercentage) := by
    cases h : u .remainingPercentage with
    | none => rfl
    | some v =>
      obtain ⟨s, rfl⟩ := hstr _ _ h
      rfl
  have hd' : tosField (u .diameter) = some none := by rw [hd]; rfl
  have htw' : tosField (u .totalWeight) = some none := by rw [htw]; rfl
  have hpp' : tosField (u .purchasePrice) = some none := by rw [hpp]; rfl
  refine ⟨buildBatchUpdatePatch u, ?_, ?_, rfl⟩
  · simp only [buildSinglePatch, hd', htw', hpp', hrp]
    congr 1
    funext f
    cases f <;>
      simp only [buildBatchUpdatePatch] <;>
      first
      | rfl
      | simp [hnone, simplifiedFields]
      | (cases h : u .status with
          | none => rfl
          | some v => obtain ⟨s, rfl⟩ := hstr _ _ h; rfl)
      | (cases h : u .storageLocation with
          | none => rfl
          | some v => obtain ⟨s, rfl⟩ := hstr _ _ h; rfl)
      | (cases h : u .remainingPercentage with
          | none => rfl
          | some v => obtain ⟨s, rfl⟩ := hstr _ _ h; rfl)
  · funext f
    cases f <;>
      simp only [buildBatchPatch, buildBatchUpdatePatch] <;>
      first
      | rfl
      | simp [hnone, simplifiedFields]
      | (cases h : u .status with
          | none => rfl
          | some v => obtain ⟨s, rfl⟩ := hstr _ _ h; rfl)
      | (cases h : u .storageLocation with
          | none => rfl
          | some v => obtain ⟨s, rfl⟩ := hstr _ _ h; rfl)
      | (cases h : u .remainingPercentage with
          | none => rfl
          | some v => obtain ⟨s, rfl⟩ := hstr _ _ h; rfl)

/-- C3, amended, witness: The agreement applied to the payload
`{status: "ok"}`. -/
theorem patch_builders_agree_witness :
    ∃ p, buildSinglePatch statusPayload = some p
      ∧ buildBatchPatch statusPayload = p
      ∧ buildBatchUpdatePatch statusPayload = p :=
  patch_builders_agree statusPayload
    (by
      intro f v h
      cases f <;> simp only [statusPayload, reduceIte] at h <;>
        cases h <;> exact ⟨_, rfl⟩)
    (by
      intro f h
      cases f <;> simp only [statusPayload, reduceIte] at h <;>
        first
        | exact absurd rfl h
        | simp [simplifiedFields])

/-! ## Theorems: color import (C8) -/

/-- C8: Importing the 3-field color row `"Bambu Lab,Black,000000"`
creates the color `"Black (Bambu Lab)"` with code `"#000000"`; the same row
against an existing `"Black (Bambu Lab)" / "#000000"` is detected as a
duplicate (so dedup runs on the `#`-prefixed code); every 3-field row
synthesizes its display name as `"<colorName> (<brand>)"`; and `ensureHash`
prefixes `#` exactly when the code lacks one. -/
theorem color_import_spec :
    colorImport (fun _ _ => true) (fun (s : List Color) n c => some (s ++ [⟨n, c⟩]))
        "Bambu Lab,Black,000000".data [] []
      = (⟨1, 0, 0⟩, [⟨"Black (Bambu Lab)".data, "#000000".data⟩])
    ∧ colorImport (fun _ _ => true) (fun (s : List Color) n c => some (s ++ [⟨n, c⟩]))
        "Bambu Lab,Black,000000".data
        [⟨"Black (Bambu Lab)".data, "#000000".data⟩] [] = (⟨0, 1, 0⟩, [])
    ∧ (∀ b n c : Str, ∀ tail : List Str,
        extractNameCode (b :: n :: c :: tail) =
          some (remQuotes (trim n) ++ " (".data ++ remQuotes (trim b) ++ ")".data,
            remQuotes (trim c)))
    ∧ (∀ cd : Str, ensureHash cd = if cd.head? = some '#' then cd else '#' :: cd) := by
  refine ⟨by decide, by decide, ?_, ?_⟩
  · intro b n c tail
    unfold extractNameCode
    rw [if_pos (by simp only [List.length_cons]; omega)]
    rfl
  · intro cd
    unfold ensureHash
    split
    · simp
    · rename_i h
      rcases cd with _ | ⟨c, r⟩
      · rfl
      · have hc : ¬c = '#' := fun hc => h r (by rw [hc])
        simp [List.head?, hc]

/-! ## Theorems: format detection (C9) -/

theorem charOfNat_toNat (n : ℕ) (h : n < 55296) : (Char.ofNat n).toNat = n := by
  have hv : n.isValidChar := Or.inl h
  simp [Char.ofNat, hv, Char.ofNatAux, Char.toNat, UInt32.toNat,
    BitVec.toNat_ofNatLt]

theorem lowChar_lowChar (c : Char) : lowChar (lowChar c) = lowChar c := by
  unfold lowChar Char.toLower
  by_cases h : c.toNat ≥ 65 ∧ c.toNat ≤ 90
  · rw [if_pos h, if_neg (by rw [charOfNat_toNat _ (by omega)]; omega)]
  · rw [if_neg h, if_neg h]

theorem lower_lower (s : Str) : lower (lower s) = lower s := by
  unfold lower
  rw [List.map_map]
  exact List.map_congr_left fun c _ => lowChar_lowChar c

/-- Embeds `lowChar` can only produce or consume characters below code point 65
unchanged. -/
theorem lowChar_eq_low (c t : Char) (ht : t.toNat < 65) :
    lowChar c = t ↔ c = t := by
  unfold lowChar Char.toLower
  by_cases h : c.toNat ≥ 65 ∧ c.toNat ≤ 90
  · rw [if_pos h]
    constructor
    · intro he
      exfalso
      have he' := congrArg Char.toNat he
      rw [charOfNat_toNat _ (by omega)] at he'
      omega
    · intro he
      exfalso
      have he' := congrArg Char.toNat he
      omega
  · rw [if_neg h]

theorem lowChar_quote (c : Char) : lowChar c = '"' ↔ c = '"' :=
  lowChar_eq_low c '"' (by decide)

theorem lowChar_comma (c : Char) : lowChar c = ',' ↔ c = ',' :=
  lowChar_eq_low c ',' (by decide)

theorem isWS_lowChar (c : Char) : isWS (lowChar c) = isWS c := by
  have h1 := lowChar_eq_low c ' ' (by decide)
  have h2 := lowChar_eq_low c '\t' (by decide)
  have h3 := lowChar_eq_low c '\n' (by decide)
  have h4 := lowChar_eq_low c '\r' (by decide)
  simp only [isWS, h1, h2, h3, h4]

theorem trim_lower (s : Str) : trim (lower s) = lower (trim s) := by
  have hws : isWS ∘ lowChar = isWS := funext fun c => isWS_lowChar c
  unfold trim lower
  rw [List.dropWhile_map, hws, ← List.map_reverse, List.dropWhile_map, hws,
    ← List.map_reverse]

theorem parseAux_lower (l : Str) : ∀ (cur : Str) (inQ : Bool),
    parseAux (lower l) (lower cur) inQ = (parseAux l cur inQ).map lower := by
  induction l with
  | nil =>
    intro cur inQ
    show [trim (lower cur)] = [lower (trim cur)]
    rw [trim_lower]
  | cons c rest ih =>
    intro cur inQ
    show parseAux (lowChar c :: lower rest) (lower cur) inQ = _
    by_cases hq : c = '"'
    · subst hq
      show parseAux (lower rest) (lower cur) (!inQ) =
        (parseAux rest cur (!inQ)).map lower
      exact ih cur (!inQ)
    · have hq' : ¬lowChar c = '"' := by rw [lowChar_quote]; exact hq
      by_cases hc : c = ',' ∧ inQ = false
      · obtain ⟨hc1, hc2⟩ := hc
        subst hc1 hc2
        show trim (lower cur) :: parseAux (lower rest) [] false =
          (trim cur :: parseAux rest [] false).map lower
        rw [List.map_cons, trim_lower]
        exact congrArg (fun t => lower (trim cur) :: t) (ih [] false)
      · have hc' : ¬(lowChar c = ',' ∧ inQ = false) := by
          rw [lowChar_comma]; exact hc
        simp only [parseAux, if_neg hq', if_neg hq, if_neg hc', if_neg hc]
        have e : lower cur ++ [lowChar c] = lower (cur ++ [c]) := by
          simp [lower]
        rw [e]
        exact ih (cur ++ [c]) inQ

theorem parseCSVLine_lower (l : Str) :
    parseCSVLine (lower l) = (parseCSVLine l).map lower := by
  have h := parseAux_lower l [] false
  simpa [parseCSVLine, lower] using h

theorem findIdx?_map {α β : Type} (f : α → β) (p : β → Bool) (l : List α) :
    ∀ i, (l.map f).findIdx? p i = l.findIdx? (fun x => p (f x)) i := by
  induction l with
  | nil => intro i; rfl
  | cons a r ih =>
    intro i
    by_cases h : p (f a) <;> simp [List.findIdx?_cons, h, ih]

/-- C9: The two given examples of `detectCSVFormat`, and the refinement:
for lower-case expected column names (the documented calling convention),
`detectCSVFormat` computes exactly the specification's description — header
exactly when some expected column is a substring of the lowered first line,
and each column mapped to the first case-insensitively equal header
field. -/
theorem detectCSVFormat_spec :
    detectCSVFormat ["Name".data, "PLA".data, "PETG".data] ["name".data]
      = ⟨1, [("name".data, 0)]⟩
    ∧ detectCSVFormat ["PLA".data, "PETG".data] ["name".data] = ⟨0, []⟩
    ∧ (∀ lines cols : List Str, (∀ col ∈ cols, lower col = col) →
        detectCSVFormat lines cols = detectCSVFormatSpec lines cols) := by
  refine ⟨by decide, by decide, ?_⟩
  intro lines cols hcols
  cases lines with
  | nil => rfl
  | cons first rest =>
    simp only [detectCSVFormat, detectCSVFormatSpec]
    by_cases hdr : (cols.any (fun col => strContains (lower first) col)) = true
    · rw [if_pos hdr, if_pos hdr]
      refine congrArg (CSVFormat.mk 1) (List.filterMap_congr fun col hcol => ?_)
      rw [parseCSVLine_lower, List.map_map, findIdx?_map]
      have hpred : (fun x => ((fun h => lower (trim h)) ∘ lower) x == col)
          = (fun h => lower (trim h) == lower col) := by
        funext x
        simp only [Function.comp_apply]
        rw [trim_lower, lower_lower, hcols col hcol]
      rw [hpred]
    · rw [if_neg hdr, if_neg hdr]

/-! ## Theorems: CSV escape/parse round trip (C6) -/

/-- One parser step on a quote character: toggle the in-quotes flag. -/
theorem parseAux_step_quote (rest cur : Str) (inQ : Bool) :
    parseAux ('"' :: rest) cur inQ = parseAux rest cur (!inQ) := by
  simp [parseAux]

/-- One parser step on a comma outside quotes: emit the trimmed field. -/
theorem parseAux_step_comma (rest cur : Str) :
    parseAux (',' :: rest) cur false = trim cur :: parseAux rest [] false := by
  simp [parseAux]

/-- One parser step on any other character: accumulate it. -/
theorem parseAux_step_other {c : Char} {inQ : Bool} (hq : ¬c = '"')
    (hc : ¬(c = ',' ∧ inQ = false)) (rest cur : Str) :
    parseAux (c :: rest) cur inQ = parseAux rest (cur ++ [c]) inQ := by
  simp only [parseAux]
  rw [if_neg hq, if_neg hc]

/-- Outside quotes, quote-free comma-free characters simply accumulate. -/
theorem parseAux_plain (s : Str) : ∀ (l cur : Str),
    (∀ c ∈ s, ¬c = '"' ∧ ¬c = ',') →
    parseAux (s ++ l) cur false = parseAux l (cur ++ s) false := by
  induction s with
  | nil =>
    intro l cur _
    simp
  | cons c r ih =>
    intro l cur h
    obtain ⟨⟨hq, hc⟩, hrest⟩ := List.forall_mem_cons.mp h
    show parseAux (c :: (r ++ l)) cur false = _
    rw [parseAux_step_other hq (fun hh => hc hh.1),
      ih l (cur ++ [c]) hrest, List.append_assoc]
    rfl

/-- Inside quotes, every quote-free character accumulates (commas
included). -/
theorem parseAux_quoted (s : Str) : ∀ (l cur : Str), (∀ c ∈ s, ¬c = '"') →
    parseAux (s ++ l) cur true = parseAux l (cur ++ s) true := by
  induction s with
  | nil =>
    intro l cur _
    simp
  | cons c r ih =>
    intro l cur h
    obtain ⟨hq, hrest⟩ := List.forall_mem_cons.mp h
    show parseAux (c :: (r ++ l)) cur true = _
    rw [parseAux_step_other hq (fun hh => by cases hh.2),
      ih l (cur ++ [c]) hrest, List.append_assoc]
    rfl

/-- Doubling quotes is the identity on quote-free strings. -/
theorem dupQuotes_id (s : Str) (h : ∀ c ∈ s, ¬c = '"') : dupQuotes s = s := by
  induction s with
  | nil => rfl
  | cons c r ih =>
    obtain ⟨hq, hrest⟩ := List.forall_mem_cons.mp h
    simp only [dupQuotes, if_neg hq]
    rw [ih hrest]

/-- Processing one escaped quote-free field appends exactly that field to
the current accumulator. -/
theorem parseAux_escape (f : Str) (hq : ∀ c ∈ f, ¬c = '"') :
    ∀ (l cur : Str), parseAux (escapeCsvField (some f) ++ l) cur false
      = parseAux l (cur ++ f) false := by
  intro l cur
  have he : escapeCsvField (some f)
      = if needsQuote f = true then '"' :: (dupQuotes f ++ ['"']) else f := rfl
  rw [he]
  by_cases hn : needsQuote f = true
  · rw [if_pos hn, dupQuotes_id f hq]
    show parseAux ('"' :: ((f ++ ['"']) ++ l)) cur false = _
    rw [parseAux_step_quote, List.append_assoc]
    simp only [Bool.not_false]
    rw [parseAux_quoted f _ cur hq]
    show parseAux ('"' :: l) (cur ++ f) true = _
    rw [parseAux_step_quote]
    rfl
  · rw [if_neg hn]
    have hn' : needsQuote f = false := by
      cases hfn : needsQuote f
      · rfl
      · exact absurd hfn hn
    have hcomma : f.contains ',' = false := by
      unfold needsQuote at hn'
      simp only [Bool.or_eq_false_iff] at hn'
      exact hn'.1.1
    apply parseAux_plain f l cur
    intro c hc
    refine ⟨hq c hc, fun hce => ?_⟩
    subst hce
    have hmem := List.elem_eq_true_of_mem hc
    have hfalse : List.elem ',' f = false := hcomma
    rw [hmem] at hfalse
    cases hfalse

/-- The round trip over the comma-joined escaped fields, generalized to the
parser's state. -/
theorem roundTrip_aux : ∀ fields : List Str, fields ≠ [] →
    (∀ f ∈ fields, ∀ c ∈ f, ¬c = '"') → (∀ f ∈ fields, trim f = f) →
    parseAux (joinComma (fields.map (fun f => escapeCsvField (some f)))) []
      false = fields := by
  intro fields
  induction fields with
  | nil => intro h; exact absurd rfl h
  | cons f rest ih =>
    intro _ hq ht
    have hqf : ∀ c ∈ f, ¬c = '"' := hq f (List.mem_cons_self f rest)
    have htf : trim f = f := ht f (List.mem_cons_self f rest)
    cases rest with
    | nil =>
      show parseAux (joinComma [escapeCsvField (some f)]) [] false = [f]
      have step := parseAux_escape f hqf [] []
      rw [List.append_nil] at step
      show parseAux (escapeCsvField (some f)) [] false = [f]
      rw [step]
      show [trim ([] ++ f)] = [f]
      rw [List.nil_append, htf]
    | cons g rest' =>
      show parseAux (escapeCsvField (some f) ++
        ',' :: joinComma ((g :: rest').map (fun f => escapeCsvField (some f))))
        [] false = f :: g :: rest'
      rw [parseAux_escape f hqf, parseAux_step_comma, List.nil_append, htf]
      exact congrArg (f :: ·)
        (ih (by simp) (fun x hx => hq x (List.mem_cons_of_mem f hx))
          (fun x hx => ht x (List.mem_cons_of_mem f hx)))

/-- C6, counterexample: The field `" a"` (leading whitespace) does not
survive the escape/parse round trip: the parser trims every field it
emits. -/
theorem roundTrip_cex :
    parseCSVLine (joinComma ([" a".data].map (fun f => escapeCsvField (some f))))
      ≠ [" a".data] := by decide

/-- C6, amended: For every non-empty list of fields containing no quote
character and no leading/trailing whitespace (each field equal to its own
trim), parsing the comma-join of the escaped fields returns the original
field list. -/
theorem roundTrip (fields : List Str) (hne : fields ≠ [])
    (hq : ∀ f ∈ fields, ∀ c ∈ f, ¬c = '"')
    (ht : ∀ f ∈ fields, trim f = f) :
    parseCSVLine (joinComma (fields.map (fun f => escapeCsvField (some f))))
      = fields :=
  roundTrip_aux fields hne hq ht

/-- C6, amended, witness: The round trip applied to
`["ab", "b,c"]`. -/
theorem roundTrip_witness :
    parseCSVLine (joinComma (["ab".data, "b,c".data].map
      (fun f => escapeCsvField (some f)))) = ["ab".data, "b,c".data] :=
  roundTrip ["ab".data, "b,c".data] (by decide) (by decide) (by decide)

/-! ## Theorems: import counting (C1) -/

/-- C9, witness (helper placement): -/
theorem detectCSVFormat_spec_witness :
    detectCSVFormat ["name,other".data, "x,y".data]
        ["name".data, "other".data]
      = detectCSVFormatSpec ["name,other".data, "x,y".data]
        ["name".data, "other".data] :=
  detectCSVFormat_spec.2.2 ["name,other".data, "x,y".data]
    ["name".data, "other".data] (by decide)

/-- A prefix of a list with no removable head has no removable head. -/
theorem dropWhile_self_of_isPrefix {p : Char → Bool} {t u : Str}
    (hpre : t <+: u) (hu : u.dropWhile p = u) : t.dropWhile p = t := by
  cases t with
  | nil => rfl
  | cons c t' =>
    obtain ⟨r, hr⟩ := hpre
    subst hr
    rw [List.cons_append] at hu
    by_cases hc : p c
    · exfalso
      rw [List.dropWhile_cons, if_pos hc] at hu
      have hlen := congrArg List.length hu
      have hle := (List.dropWhile_suffix (l := t' ++ r) p).length_le
      simp only [List.length_cons] at hlen
      omega
    · rw [List.dropWhile_cons, if_neg hc]

/-- Embeds `trim` is idempotent. -/
theorem trim_trim (s : Str) : trim (trim s) = trim s := by
  have htrim : ∀ x : Str,
      trim x = List.rdropWhile isWS (x.dropWhile isWS) := fun _ => rfl
  rw [htrim, htrim]
  have hdu : (s.dropWhile isWS).dropWhile isWS = s.dropWhile isWS :=
    List.dropWhile_idempotent isWS s
  have hdt : (List.rdropWhile isWS (s.dropWhile isWS)).dropWhile isWS
      = List.rdropWhile isWS (s.dropWhile isWS) :=
    dropWhile_self_of_isPrefix (List.rdropWhile_prefix isWS (s.dropWhile isWS)) hdu
  rw [hdt, List.rdropWhile_idempotent]

/-- Folding a step that adds a per-row weight adds the total weight. -/
theorem foldl_processed {σ : Type}
    (step : ImportResult × σ → Str → ImportResult × σ) (w : Str → ℕ)
    (h : ∀ st l, ((step st l).1).processed = st.1.processed + w l) :
    ∀ (lines : List Str) (st : ImportResult × σ),
      ((lines.foldl step st).1).processed
        = st.1.processed + (lines.map w).sum := by
  intro lines
  induction lines with
  | nil =>
    intro st
    simp
  | cons l rest ih =>
    intro st
    rw [List.foldl_cons, ih, h]
    simp only [List.map_cons, List.sum_cons]
    omega

/-- The uniform row weight sums to the non-blank row count. -/
theorem sum_rowWeight (lines : List Str) :
    (lines.map rowWeight).sum = countNonBlank lines := by
  induction lines with
  | nil => rfl
  | cons l rest ih =>
    unfold countNonBlank at ih ⊢
    rw [List.map_cons, List.sum_cons, List.filter_cons, ih]
    by_cases h : (trim l).isEmpty = true <;>
      simp [rowWeight, h] <;> omega

theorem filamentRow_processed {σ : Type} (create : σ → FilDraft → Option σ)
    (uid : ℕ) (ex : List Str) (si : ℕ) (cm : List (Str × ℕ))
    (st : ImportResult × σ) (line : Str) :
    ((filamentRow create uid ex si cm st line).1).processed
      = st.1.processed + rowWeight line := by
  simp only [filamentRow, rowWeight]
  by_cases h : (trim line).isEmpty = true
  · rw [if_pos h, if_pos h]
    omega
  · rw [if_neg h, if_neg h]
    repeat' split
    all_goals simp only [ImportResult.processed]
    all_goals first | omega | simp_all [trim_trim]

theorem colorRow_processed {σ : Type} (validate : Str → Str → Bool)
    (create : σ → Str → Str → Option σ) (existing : List Color)
    (st : ImportResult × σ) (line : Str) :
    ((colorRow validate create existing st line).1).processed
      = st.1.processed + rowWeight line := by
  simp only [colorRow, rowWeight]
  by_cases h : (trim line).isEmpty = true
  · rw [if_pos h, if_pos h]
    omega
  · rw [if_neg h, if_neg h]
    repeat' split
    all_goals simp only [ImportResult.processed]
    all_goals first | omega | simp_all [trim_trim]

theorem diaRow_processed {σ : Type} (getVals : σ → List Str)
    (validate : Str → Bool) (create : σ → Str → Option σ)
    (st : ImportResult × σ) (line : Str) :
    ((diaRow getVals validate create st line).1).processed
      = st.1.processed + rowWeight line := by
  simp only [diaRow, rowWeight]
  by_cases h : (trim line).isEmpty = true
  · rw [if_pos h, if_pos h]
    omega
  · rw [if_neg h, if_neg h]
    repeat' split
    all_goals simp only [ImportResult.processed]
    all_goals first | omega | simp_all [trim_trim]

theorem slRow_processed {σ : Type} (getNames : σ → List Str)
    (validate : Str → Bool) (create : σ → Str → Option σ)
    (st : ImportResult × σ) (line : Str) :
    ((slRow getNames validate create st line).1).processed
      = st.1.processed + rowWeight line := by
  simp only [slRow, rowWeight]
  by_cases h : (trim line).isEmpty = true
  · rw [if_pos h, if_pos h]
    omega
  · rw [if_neg h, if_neg h]
    repeat' split
    all_goals simp only [ImportResult.processed]
    all_goals first | omega | simp_all [trim_trim]

theorem namedRow_processed {σ : Type} (getNames : σ → List Str)
    (validate : Str → Bool) (create : σ → Str → Option σ) (idx : ℕ)
    (st : ImportResult × σ) (line : Str) :
    ((namedRow getNames validate create idx st line).1).processed
      = st.1.processed + namedWeight idx line := by
  simp only [namedRow, namedWeight]
  by_cases h : (trim line).isEmpty = true
  · rw [if_pos h, if_pos h]
    omega
  · rw [if_neg h, if_neg h]
    repeat' split
    all_goals simp only [ImportResult.processed]
    all_goals first | omega | simp_all

/-- C1, counterexample: A manufacturer CSV import of the single
non-blank data row `",x"` (empty name cell) returns counters summing to 0,
not 1: the row is skipped without incrementing any counter. -/
theorem import_counts_cex :
    ¬(((manufacturerImport (fun (s : List Str) => s) (fun _ => true)
        (fun s n => some (s ++ [n])) ",x".data []).1).processed
      = countNonBlank ((",x".data.splitOn '\n').drop
        (namedHeaderInfo manuKeyword
          (lower ((",x".data.splitOn '\n').headD []))).1)) := by decide

/-- C1, amended: For the filament, color, diameter and storage-location
CSV imports — whatever the repository and schema validator do —
`created + duplicates + errors` equals the number of non-blank data rows,
the header row excluded when one is detected. For the name-keyed imports
(manufacturer and material, any header keywords), the sum instead counts
exactly the non-blank data rows whose extracted name is non-empty (rows
with an empty name cell are skipped without counting). -/
theorem import_counts :
    (∀ (σ : Type) (create : σ → FilDraft → Option σ) (uid : ℕ)
      (csvData : Str) (ex : List Str) (s : σ),
      ((filamentCSVImport create uid csvData ex s).1).processed
        = countNonBlank ((filamentCsvLines csvData).drop
            (detectCSVFormat (filamentCsvLines csvData)
              expectedFilamentColumns).startIndex))
    ∧ (∀ (σ : Type) (validate : Str → Str → Bool)
      (create : σ → Str → Str → Option σ) (csvData : Str)
      (existing : List Color) (s : σ),
      ((colorImport validate create csvData existing s).1).processed
        = countNonBlank ((csvData.splitOn '\n').drop
            (colorStartIndex (csvData.splitOn '\n'))))
    ∧ (∀ (σ : Type) (getVals : σ → List Str) (validate : Str → Bool)
      (create : σ → Str → Option σ) (csvData : Str) (s : σ),
      ((diameterImport getVals validate create csvData s).1).processed
        = countNonBlank ((csvData.splitOn '\n').drop
            (diaStartIndex (csvData.splitOn '\n'))))
    ∧ (∀ (σ : Type) (getNames : σ → List Str) (validate : Str → Bool)
      (create : σ → Str → Option σ) (csvData : Str) (s : σ),
      ((storageLocationImport getNames validate create csvData s).1).processed
        = countNonBlank ((csvData.splitOn '\n').drop
            (slStartIndex (csvData.splitOn '\n'))))
    ∧ (∀ (σ : Type) (kw : Str → Bool) (getNames : σ → List Str)
      (validate : Str → Bool) (create : σ → Str → Option σ) (csvData : Str)
      (s : σ),
      ((namedImport kw getNames validate create csvData s).1).processed
        = (((csvData.splitOn '\n').drop
            (namedHeaderInfo kw (lower ((csvData.splitOn '\n').headD []))).1).map
              (namedWeight
                (namedHeaderInfo kw
                  (lower ((csvData.splitOn '\n').headD []))).2)).sum) := by
  refine ⟨?_, ?_, ?_, ?_, ?_⟩
  · intro σ create uid csvData ex s
    unfold filamentCSVImport
    rw [foldl_processed _ rowWeight
      (filamentRow_processed create uid ex _ _), sum_rowWeight]
    simp [ImportResult.processed]
  · intro σ validate create csvData existing s
    unfold colorImport
    rw [foldl_processed _ rowWeight
      (colorRow_processed validate create existing), sum_rowWeight]
    simp [ImportResult.processed]
  · intro σ getVals validate create csvData s
    unfold diameterImport
    rw [foldl_processed _ rowWeight
      (diaRow_processed getVals validate create), sum_rowWeight]
    simp [ImportResult.processed]
  · intro σ getNames validate create csvData s
    unfold storageLocationImport
    rw [foldl_processed _ rowWeight
      (slRow_processed getNames validate create), sum_rowWeight]
    simp [ImportResult.processed]
  · intro σ kw getNames validate create csvData s
    unfold namedImport
    rw [foldl_processed _
      (namedWeight
        (namedHeaderInfo kw (lower ((csvData.splitOn '\n').headD []))).2)
      (namedRow_processed getNames validate create _)]
    simp [ImportResult.processed]

/-! ## Theorems: in-import duplicate handling (C2) -/

/-- C2, counterexample: A color CSV import whose two rows carry the same
dedup key (same name and code, empty existing index) creates the row twice:
`created = 2` and `duplicates = 0` — the later equal-key row is *not*
counted as a duplicate, because the in-memory index is never extended after
a create. -/
theorem import_dedup_cex :
    ((colorImport (fun _ _ => true)
      (fun (s : List Color) n c => some (s ++ [⟨n, c⟩]))
      ("Black,#000000".data ++ '\n' :: "Black,#000000".data) [] []).1).created
        = 2
    ∧ ((colorImport (fun _ _ => true)
      (fun (s : List Color) n c => some (s ++ [⟨n, c⟩]))
      ("Black,#000000".data ++ '\n' :: "Black,#000000".data) [] []).1).duplicates
        = 0 := by decide

/-- C2, amended: The filament and color CSV imports check duplicates
only against the index loaded before the loop and never add created keys to
it, so an identical later row is created again (`created = 2`,
`duplicates = 0`); the name-keyed imports (manufacturer, material) re-fetch
the collection from the repository before every row, so there the later
equal-key row *is* counted as a duplicate (`created = 1`,
`duplicates = 1`). -/
theorem import_dedup :
    ((colorImport (fun _ _ => true)
      (fun (s : List Color) n c => some (s ++ [⟨n, c⟩]))
      ("Blue,#0000FF".data ++ '\n' :: "Blue,#0000FF".data) [] []).1
        = ⟨2, 0, 0⟩)
    ∧ ((filamentCSVImport (fun (s : List FilDraft) d => some (s ++ [d])) 7
      ("A,B,C,D".data ++ '\n' :: "A,B,C,D".data) [] []).1 = ⟨2, 0, 0⟩)
    ∧ ((manufacturerImport (fun (s : List Str) => s) (fun _ => true)
      (fun s n => some (s ++ [n])) ("Acme".data ++ '\n' :: "Acme".data)
      []).1 = ⟨1, 1, 0⟩) := by
  refine ⟨by decide, by decide, by decide⟩

end Filadex
